import Mathlib

/- Shallow embedding of pelican/contents.py (the content model, URL
   resolution and link rewriting of the static site generator) together
   with proofs about the specification's claims.

   Modelling conventions:
   - Python strings are Lean `String` / `List Char`; datetimes are an
     integer timeline (`Int`), only their ordering is ever consulted;
     "now" (datetime.now()) is an explicit parameter.
   - the dynamic attribute set created by setattr is an association list
     `Attrs` from attribute name to `Val`;
   - fallible operations (dict lookup / str.format / settings access)
     return `Option`;
   - the process working directory used by os.path.abspath is taken to be
     the filesystem root, and locale/date-format side effects
     (locale.setlocale, strftime, self.locale_date) are outside the model:
     no claim consults them. -/

namespace Pelican

/-! ### Python string helpers -/

/-- ASCII lower-casing, modelling Python str.lower on the identifiers
appearing in the claims (language codes, settings keys). -/
def asciiLower (c : Char) : Char :=
  if 'A' ≤ c && c ≤ 'Z' then Char.ofNat (c.toNat + 32) else c

/-- ASCII upper-casing, modelling Python str.upper on settings keys. -/
def asciiUpper (c : Char) : Char :=
  if 'a' ≤ c && c ≤ 'z' then Char.ofNat (c.toNat - 32) else c

/-- Model of str.lower. -/
def pyLower (s : String) : String := String.mk (s.data.map asciiLower)

/-- Model of str.upper. -/
def pyUpper (s : String) : String := String.mk (s.data.map asciiUpper)

/-- Characters treated as whitespace by Python (str.strip, regex \s). -/
def isPySpace (c : Char) : Bool :=
  c == ' ' || c == '\t' || c == '\n' || c == '\r' || c == '\x0b' || c == '\x0c'

/-- Model of Python unicode.strip (no argument): drop leading and
trailing whitespace.  Used by Tag.__init__. -/
def pyStrip (s : String) : String :=
  String.mk (((s.data.dropWhile isPySpace).reverse.dropWhile isPySpace).reverse)

/-- The single-quote character (written numerically for lexical
hygiene of this file). -/
def squote : Char := Char.ofNat 39

/-! ### Attribute values -/

/-- Python attribute values occurring in the content model: strings,
datetimes (an integer timeline), booleans, URLWrapper-valued attributes
(carried by their name, which determines their str() rendering), and
None. -/
inductive Val where
  | vs : String → Val
  | vd : Int → Val
  | vb : Bool → Val
  | vw : String → Val
  | vnone : Val
deriving DecidableEq, Repr

/-- Rendering of an attribute value by str()/format; the non-string
renderings are tagged models (no claim depends on their exact text). -/
def Val.render : Val → String
  | .vs s => s
  | .vd t => "datetime-" ++ toString t
  | .vb b => if b then "True" else "False"
  | .vw n => n
  | .vnone => "None"

/-- Model of Python == between an attribute value and a string
(Page.__init__: self.lang == default_lang).  A missing attribute or a
value of non-string kind never equals a string. -/
def valEqS (v : Option Val) (s : String) : Bool :=
  match v with
  | some (.vs a) => a == s
  | some (.vw n) => n == s
  | _ => false

/-! ### Python dicts as association lists -/

abbrev Attrs := List (String × Val)

/-- Model of Python dict item assignment d[k] = v (keys stay unique). -/
def dictSet : Attrs → String → Val → Attrs
  | [], k, v => [(k, v)]
  | (k0, v0) :: t, k, v => if k0 = k then (k, v) :: t else (k0, v0) :: dictSet t k v

/-- Model of Python dict lookup d.get(k). -/
def getV : Attrs → String → Option Val
  | [], _ => none
  | (k0, v0) :: t, k => if k0 = k then some v0 else getV t k

/-- Model of the Python `k in d` test. -/
def hasKey (d : Attrs) (k : String) : Bool := (getV d k).isSome

/-- Build a dict from a key/value list (later occurrences win, as for
successive dict assignments). -/
def dictOf (l : List (String × Val)) : Attrs :=
  l.foldl (fun d kv => dictSet d kv.1 kv.2) []

/-- Page.__init__: local_metadata = dict(settings.get('DEFAULT_METADATA', ()))
followed by local_metadata.update(metadata). -/
def local_meta (dm : List (String × Val)) (metadata : List (String × Val)) : Attrs :=
  metadata.foldl (fun d kv => dictSet d kv.1 kv.2) (dictOf dm)

/-- Lookup in a string-to-string mapping (used for the URL template
settings and for format parameter mappings). -/
def lookupStr : List (String × String) → String → Option String
  | [], _ => none
  | (k0, v0) :: t, k => if k0 = k then some v0 else lookupStr t k

/-! ### Settings -/

/-- Configuration snapshot.  The dynamically keyed URL templates
("<TYPE>_URL", "<TYPE>_SAVE_AS", ...) live in the string-keyed
`templates` map, looked up exactly as settings[fq_key] is; the remaining
settings consulted by contents.py are typed fields, the `Option` ones
modelling the `'KEY' in settings` membership tests. -/
structure Settings where
  DEFAULT_METADATA : List (String × Val)
  DEFAULT_LANG : Option String
  DEFAULT_STATUS : String
  WITH_FUTURE_DATES : Bool
  SUMMARY_MAX_LENGTH : Nat
  AUTHOR : Option String
  DEFAULT_CATEGORY : String
  PATH : String
  templates : List (String × String)
deriving DecidableEq, Repr

/-! ### Content construction (Page.__init__), step by step -/

/-- Page.__init__: "set metadata as attributes" — setattr(self,
key.lower(), value) for each item.  The key "summary" hits the
write-disabled `summary` property of the class, so no attribute is
created for it (the dummy setter discards the value). -/
def attrs_meta (lm : Attrs) : Attrs :=
  lm.foldl (fun a kv => if pyLower kv.1 = "summary" then a else dictSet a (pyLower kv.1) kv.2) []

/-- Page.__init__ together with Page._get_template: the template is the
explicit non-None `template` attribute if present, else the subtype's
default_template. -/
def step_template (default_template : String) (a : Attrs) : Attrs :=
  dictSet a "template"
    (match getV a "template" with
     | some v => if v = Val.vnone then Val.vs default_template else v
     | none => Val.vs default_template)

/-- Page.__init__: "default author to the one in settings if not
defined" — Author(settings['AUTHOR'], settings). -/
def step_author (settings : Settings) (a : Attrs) : Attrs :=
  if hasKey a "author" then a
  else
    match settings.AUTHOR with
    | some nm => dictSet a "author" (Val.vw nm)
    | none => a

/-- Page.__init__: "manage languages" — in_default_lang starts True; when
DEFAULT_LANG is configured, default_lang is its lower-casing, a missing
lang attribute is set to default_lang, and in_default_lang becomes
(self.lang == default_lang).  Note the entity's own lang is NOT
lower-cased in that comparison. -/
def step_lang (settings : Settings) (a : Attrs) : Attrs :=
  let a1 := dictSet a "in_default_lang" (Val.vb true)
  match settings.DEFAULT_LANG with
  | none => a1
  | some dl0 =>
    let dl := pyLower dl0
    let a2 := if hasKey a1 "lang" then a1 else dictSet a1 "lang" (Val.vs dl)
    dictSet a2 "in_default_lang" (Val.vb (valEqS (getV a2 "lang") dl))

/-- Page.__init__: "create the slug if not existing, from the title". -/
def step_slug (slugify : String → String) (a : Attrs) : Attrs :=
  if hasKey a "slug" then a
  else
    match getV a "title" with
    | some tv => dictSet a "slug" (Val.vs (slugify tv.render))
    | none => a

/-- Page.__init__: "manage status" — when no explicit status attribute
exists, status is settings['DEFAULT_STATUS'], downgraded to "draft" when
WITH_FUTURE_DATES is false and the date attribute is a datetime in the
future. -/
def step_status (settings : Settings) (now : Int) (a : Attrs) : Attrs :=
  if hasKey a "status" then a
  else
    let a1 := dictSet a "status" (Val.vs settings.DEFAULT_STATUS)
    if settings.WITH_FUTURE_DATES then a1
    else
      match getV a1 "date" with
      | some (Val.vd t) => if now < t then dictSet a1 "status" (Val.vs "draft") else a1
      | _ => a1

/-! ### The Page entity -/

/-- The constructed content entity.  cls is __class__.__name__ (used to
build settings keys); raw_content models self._content; metadata is
local_metadata; attrs is the dynamic attribute set; summary_meta models
self._summary.  The context (site-wide filename index and local site
url) is not stored: Python keeps a non-owning reference, the model
passes it to the functions that read it. -/
structure Page where
  cls : String
  mandatory_properties : List String
  settings : Settings
  raw_content : String
  metadata : Attrs
  attrs : Attrs
  filename : Option String
  summary_meta : Option Val
deriving DecidableEq, Repr

/-- Page.__init__ for a subtype described by (cls, default_template,
mandatory), given the parsed content, the per-item metadata, the
settings, the source filename and the current time.  slugify is the
external pelican.utils.slugify collaborator, passed as a parameter (it
is not part of this repository's source).  Construction is a total
function: it never fails, whatever the metadata.  The date-format /
locale_date steps (process-global locale side effects) are outside the
model; no claim consults them. -/
def mkContent (cls : String) (default_template : String) (mandatory : List String)
    (slugify : String → String) (content : String) (metadata : List (String × Val))
    (settings : Settings) (filename : Option String) (now : Int) : Page :=
  let lm := local_meta settings.DEFAULT_METADATA metadata
  let a0 := attrs_meta lm
  let a1 := step_template default_template a0
  let a2 := step_author settings a1
  let a3 := step_lang settings a2
  let a4 := step_slug slugify a3
  let a5 := step_status settings now a4
  ⟨cls, mandatory, settings, content, lm, a5,
   (match filename with
    | some f => if f = "" then none else some f
    | none => none),
   getV (dictOf metadata) "summary"⟩

/-- A Page: mandatory_properties = ('title',), default_template = 'page'. -/
def mkPage (slugify : String → String) (content : String) (metadata : List (String × Val))
    (settings : Settings) (filename : Option String) (now : Int) : Page :=
  mkContent "Page" "page" ["title"] slugify content metadata settings filename now

/-- An Article: mandatory_properties = ('title', 'date', 'category'),
default_template = 'article'. -/
def mkArticle (slugify : String → String) (content : String) (metadata : List (String × Val))
    (settings : Settings) (filename : Option String) (now : Int) : Page :=
  mkContent "Article" "article" ["title", "date", "category"] slugify content metadata settings
    filename now

/-- Model of hasattr(self, n) for the dynamically set attributes (the
only ones any claim consults). -/
def Page.hasattr (p : Page) (n : String) : Bool := hasKey p.attrs n

/-- Helper for check_properties: walk the mandatory properties in
declaration order. -/
def check_go (p : Page) : List String → Except String Unit
  | [] => .ok ()
  | pr :: rest => if p.hasattr pr then check_go p rest else .error pr

/-- Page.check_properties: "test that each mandatory property is set",
raising NameError(prop) — modelled as Except.error prop — at the first
missing one. -/
def Page.check_properties (p : Page) : Except String Unit :=
  check_go p p.mandatory_properties

/-- Read self.in_default_lang (construction always sets it). -/
def Page.in_default_lang (p : Page) : Bool :=
  match getV p.attrs "in_default_lang" with
  | some (Val.vb b) => b
  | _ => true

/-! ### URL / path resolution -/

/-- getattr(self, k, default) rendered for a format mapping. -/
def getVD (p : Page) (k : String) (d : Val) : Val := (getV p.attrs k).getD d

/-- Page.url_format: the parameter mapping {slug, lang, date, author,
category} with the source's defaults (empty slug/author, lang 'en',
date now, category settings['DEFAULT_CATEGORY']). -/
def Page.url_format (p : Page) (now : Int) : List (String × String) :=
  [("slug", (getVD p "slug" (Val.vs "")).render),
   ("lang", (getVD p "lang" (Val.vs "en")).render),
   ("date", (getVD p "date" (Val.vd now)).render),
   ("author", (getVD p "author" (Val.vs "")).render),
   ("category", (getVD p "category" (Val.vs p.settings.DEFAULT_CATEGORY)).render)]

/-- Helper for pyFormat: read a replacement-field name up to the closing
brace (a brace inside the name is malformed). -/
def takeName : List Char → Option (List Char × List Char)
  | [] => none
  | c :: t =>
    if c = '}' then some ([], t)
    else if c = '{' then none
    else (takeName t).map (fun pr => (c :: pr.1, pr.2))

/-- Fuelled worker for pyFormat (fuel only bounds the recursion; the
wrapper supplies enough for any input). -/
def pyFormatGo (m : List (String × String)) : Nat → List Char → Option (List Char)
  | 0, _ => none
  | _ + 1, [] => some []
  | fuel + 1, c :: t =>
    if c = '{' then
      match t with
      | '{' :: t2 => (pyFormatGo m fuel t2).map (fun r => '{' :: r)
      | _ =>
        match takeName t with
        | none => none
        | some (nm, t2) =>
          match lookupStr m (String.mk nm) with
          | none => none
          | some v => (pyFormatGo m fuel t2).map (fun r => v.data ++ r)
    else if c = '}' then
      match t with
      | '}' :: t2 => (pyFormatGo m fuel t2).map (fun r => '}' :: r)
      | _ => none
    else (pyFormatGo m fuel t).map (fun r => c :: r)

/-- Model of Python str.format(**mapping) for templates built from plain
{name} fields (with doubled-brace escapes); an unknown field name or a
malformed template is an error, modelled as none. -/
def pyFormat (tpl : String) (m : List (String × String)) : Option String :=
  (pyFormatGo m (tpl.data.length + 1) tpl.data).map String.mk

/-- Page._expand_settings: fq_key = ('%s_%s' % (class name, key)).upper(),
then settings[fq_key].format(**url_format). -/
def Page.expand_settings (p : Page) (key : String) (now : Int) : Option String :=
  match lookupStr p.settings.templates (pyUpper (p.cls ++ "_" ++ key)) with
  | none => none
  | some tpl => pyFormat tpl (p.url_format now)

/-- Page.get_url_setting: key, or 'lang_' + key when not in the default
language. -/
def Page.get_url_setting (p : Page) (key : String) (now : Int) : Option String :=
  p.expand_settings (if p.in_default_lang then key else "lang_" ++ key) now

/-- Page.url (property). -/
def Page.url (p : Page) (now : Int) : Option String := p.get_url_setting "url" now

/-- Page.save_as (property). -/
def Page.save_as (p : Page) (now : Int) : Option String := p.get_url_setting "save_as" now

/-! ### POSIX path functions (os.path.join / normpath / abspath /
relpath / dirname), as pure functions on character lists.  abspath is
modelled with the process working directory at the filesystem root. -/

/-- str.split('/'). -/
def splitSlash : List Char → List (List Char)
  | [] => [[]]
  | c :: t =>
    if c = '/' then [] :: splitSlash t
    else
      match splitSlash t with
      | h :: r => (c :: h) :: r
      | [] => [[c]]

/-- '/'.join for path components. -/
def joinSlash : List (List Char) → List Char
  | [] => []
  | [x] => x
  | x :: r => x ++ '/' :: joinSlash r

/-- One step of posixpath.normpath component processing (acc is the
processed component list, most recent first). -/
def normStep (initSl : Bool) (acc : List (List Char)) (comp : List Char) : List (List Char) :=
  if comp = [] ∨ comp = ['.'] then acc
  else if comp ≠ ['.', '.'] ∨ (¬ initSl ∧ acc = []) ∨ acc.head? = some ['.', '.'] then comp :: acc
  else
    match acc with
    | _ :: t => t
    | [] => acc

/-- posixpath.normpath. -/
def normpathL (p : List Char) : List Char :=
  let slashes : Nat :=
    if p.take 2 = ['/', '/'] ∧ p.take 3 ≠ ['/', '/', '/'] then 2
    else if p.head? = some '/' then 1 else 0
  let comps := ((splitSlash p).foldl (normStep (0 < slashes)) []).reverse
  let res := List.replicate slashes '/' ++ joinSlash comps
  if res = [] then ['.'] else res

/-- posixpath.join for two components. -/
def joinPathL (a b : List Char) : List Char :=
  if b.head? = some '/' then b
  else if a = [] ∨ a.getLast? = some '/' then a ++ b
  else a ++ '/' :: b

/-- posixpath.abspath with the working directory modelled as the root. -/
def abspathL (p : List Char) : List Char :=
  normpathL (if p.head? = some '/' then p else '/' :: p)

/-- Length of the common prefix of two component lists. -/
def commonPrefixLen : List (List Char) → List (List Char) → Nat
  | a :: as, b :: bs => if a = b then commonPrefixLen as bs + 1 else 0
  | _, _ => 0

/-- posixpath.relpath. -/
def relpathL (path start : List Char) : List Char :=
  let sl := (splitSlash (abspathL start)).filter (fun x => x ≠ [])
  let pl := (splitSlash (abspathL path)).filter (fun x => x ≠ [])
  let i := commonPrefixLen sl pl
  let rel := List.replicate (sl.length - i) ['.', '.'] ++ pl.drop i
  if rel = [] then ['.'] else joinSlash rel

/-- posixpath.dirname. -/
def dirnameL (p : List Char) : List Char :=
  let head := (p.reverse.dropWhile (fun c => c ≠ '/')).reverse
  if head.all (fun c => c = '/') then head
  else (head.reverse.dropWhile (fun c => c = '/')).reverse

/-- Page.get_relative_filename: os.path.relpath(os.path.abspath(
os.path.join(settings['PATH'], filename)), os.path.abspath(settings['PATH'])). -/
def get_relative_filename (settingsPATH : List Char) (fname : List Char) : List Char :=
  relpathL (abspathL (joinPathL settingsPATH fname)) (abspathL settingsPATH)

/-- Page.relative_dir: os.path.dirname(os.path.relpath(os.path.abspath(
self.filename), os.path.abspath(settings['PATH']))).  Reading
self.filename raises AttributeError when the attribute was never set
(filename argument None or empty at construction); none models that
propagating exception. -/
def Page.relative_dir (p : Page) : Option (List Char) :=
  match p.filename with
  | none => none
  | some f => some (dirnameL (relpathL (abspathL f.data) (abspathL p.settings.PATH.data)))

/-! ### The link-rewriting regex of Page._update_content

    hrefs = (?P<markup><\s*[^\>]*(?:href|src)\s*=)(?P<quote>["'])
            (?P<path>\|(?P<what>.*?)\|(?P<value>.*?))\2

    modelled as an explicit scanner with Python's backtracking
    preferences: the leftmost match wins, [^>]* is greedy (the LAST
    href/src candidate before the tag close is tried first), the two
    .*? groups are lazy, and . never matches a newline. -/

/-- Match a literal. -/
def stripPrefixL : List Char → List Char → Option (List Char)
  | [], t => some t
  | _ :: _, [] => none
  | a :: pre, b :: t => if a = b then stripPrefixL pre t else none

/-- Parse \s*= (greedy whitespace, then the equals sign). -/
def parseWsEq : List Char → Option (List Char × List Char)
  | [] => none
  | c :: t =>
    if isPySpace c then (parseWsEq t).map (fun pr => (c :: pr.1, pr.2))
    else if c = '=' then some ([c], t) else none

/-- Parse (?:href|src)\s*=, returning the consumed text and the rest. -/
def parseKeyEq (t : List Char) : Option (List Char × List Char) :=
  match stripPrefixL ['h', 'r', 'e', 'f'] t with
  | some r =>
    match parseWsEq r with
    | some (we, rest) => some (['h', 'r', 'e', 'f'] ++ we, rest)
    | none => none
  | none =>
    match stripPrefixL ['s', 'r', 'c'] t with
    | some r =>
      match parseWsEq r with
      | some (we, rest) => some (['s', 'r', 'c'] ++ we, rest)
      | none => none
    | none => none

/-- Lazy .*? up to a stop character: the shortest newline-free prefix
ending right before the first stop. -/
def lazyUntil (stop : Char) : List Char → Option (List Char × List Char)
  | [] => none
  | c :: t =>
    if c = stop then some ([], t)
    else if c = '\n' then none
    else (lazyUntil stop t).map (fun pr => (c :: pr.1, pr.2))

/-- Parse (?P<what>.*?)\|(?P<value>.*?)q after the opening pipe: the
lazy what group is extended past a candidate separator pipe only when no
closing quote can be found for the value after it. -/
def parseWhatValue (q : Char) : List Char → Option (List Char × List Char × List Char)
  | [] => none
  | c :: t =>
    if c = '\n' then none
    else if c = '|' then
      match lazyUntil q t with
      | some (v, r) => some ([], v, r)
      | none => (parseWhatValue q t).map (fun x => (c :: x.1, x.2.1, x.2.2))
    else (parseWhatValue q t).map (fun x => (c :: x.1, x.2.1, x.2.2))

/-- A successful parse of (?:href|src)\s*=["']\|what\|value["'] at one
candidate position. -/
structure KeyMatch where
  keyeq : List Char
  quote : Char
  what : List Char
  value : List Char
  rest : List Char
deriving DecidableEq, Repr

/-- Try the full key/quote/path parse at the current position. -/
def parseFromKey (t : List Char) : Option KeyMatch :=
  match parseKeyEq t with
  | none => none
  | some (ke, r) =>
    match r with
    | [] => none
    | qc :: r2 =>
      if qc = '"' ∨ qc = squote then
        match r2 with
        | '|' :: r3 =>
          match parseWhatValue qc r3 with
          | some (w, v, rest) => some ⟨ke, qc, w, v, rest⟩
          | none => none
        | _ => none
      else none

/-- A successful match of the attribute part after the opening '<'. -/
structure AttrMatch where
  before : List Char
  keyeq : List Char
  quote : Char
  what : List Char
  value : List Char
  rest : List Char
deriving DecidableEq, Repr

/-- Scan the region after '<' (which [^>]* may cover: anything up to the
first '>').  The greedy [^>]* means the deepest successful candidate is
preferred, so the scan recurses first and only then tries the current
position. -/
def attrScan : List Char → Option AttrMatch
  | [] => none
  | c :: t =>
    if c = '>' then none
    else
      match attrScan t with
      | some m => some ⟨c :: m.before, m.keyeq, m.quote, m.what, m.value, m.rest⟩
      | none =>
        match parseFromKey (c :: t) with
        | some k => some ⟨[], k.keyeq, k.quote, k.what, k.value, k.rest⟩
        | none => none

/-- One full regex match: pre is the text before it, markup/quote/what/
value the named groups, rest the text after the closing quote. -/
structure RegexMatch where
  pre : List Char
  markup : List Char
  quote : Char
  what : List Char
  value : List Char
  rest : List Char
deriving DecidableEq, Repr

/-- Try a match at the current position (must open with '<'). -/
def matchAt : List Char → Option RegexMatch
  | [] => none
  | c :: t =>
    if c = '<' then
      match attrScan t with
      | some m => some ⟨[], '<' :: (m.before ++ m.keyeq), m.quote, m.what, m.value, m.rest⟩
      | none => none
    else none

/-- Leftmost match, as re.sub finds it. -/
def findFirst : List Char → Option RegexMatch
  | [] => none
  | c :: t =>
    match matchAt (c :: t) with
    | some m => some m
    | none =>
      match findFirst t with
      | some m => some ⟨c :: m.pre, m.markup, m.quote, m.what, m.value, m.rest⟩
      | none => none

/-- re.sub: replace every non-overlapping match left to right, the
replacement being markup + quote + (replacer origin) + quote; scanning
resumes after the match in the ORIGINAL text.  Fuelled (each match
consumes at least one character, so length + 1 fuel always suffices);
a failing replacer (a propagating exception) yields none. -/
def subAll (repl : List Char → List Char → Option (List Char)) :
    Nat → List Char → Option (List Char)
  | 0, _ => none
  | fuel + 1, s =>
    match findFirst s with
    | none => some s
    | some m =>
      match repl m.what m.value with
      | none => none
      | some origin2 =>
        match subAll repl fuel m.rest with
        | none => none
        | some tail => some (m.pre ++ m.markup ++ m.quote :: (origin2 ++ m.quote :: tail))

/-- Lookup in the context's filenames index. -/
def lookupFn : List (List Char × Page) → List Char → Option Page
  | [], _ => none
  | (k, pg) :: t, key => if k = key then some pg else lookupFn t key

/-- The reference kind handled by the replacer: 'filename'. -/
def filenameL : List Char := ['f', 'i', 'l', 'e', 'n', 'a', 'm', 'e']

/-- The replacer closure of Page._update_content, acting on the matched
what/value groups and returning the text that replaces the path group:
only the 'filename' kind is handled; a value starting with '/' is
content-root relative (leading slash stripped), anything else resolves
against the entity's relative_dir via get_relative_filename — which
raises (none) when the entity has no filename attribute; a hit in
context.filenames substitutes the target's url (none there models the
exception when that url's settings template is broken), a miss logs a
warning and keeps the original placeholder text. -/
def Page.replacer (p : Page) (filenames : List (List Char × Page)) (now : Int)
    (what value : List Char) : Option (List Char) :=
  let origin := '|' :: (what ++ '|' :: value)
  if what = filenameL then
    match (if value.head? = some '/' then some (value.drop 1)
           else (p.relative_dir).map (fun rd =>
             get_relative_filename p.settings.PATH.data (joinPathL rd value))) with
    | none => none
    | some value2 =>
      match lookupFn filenames value2 with
      | some target => (Page.url target now).map (fun u => u.data)
      | none => some origin
  else some origin

/-- Page._update_content: rewrite the |what|value placeholders found in
href=/src= attribute values.  The siteurl argument is accepted and, as
in the source, never read. -/
def Page.update_content (p : Page) (filenames : List (List Char × Page)) (now : Int)
    (content : List Char) (siteurl : List Char) : Option (List Char) :=
  subAll (p.replacer filenames now) (content.length + 1) content

/-- The site-wide context handed over by the orchestrator. -/
structure Context where
  filenames : List (List Char × Page)
  localsiteurl : String

/-- Page.get_content (the memoized cache stores, per siteurl key, exactly
this value; Page has no _get_content, so the body is self._content). -/
def Page.get_content (p : Page) (filenames : List (List Char × Page)) (now : Int)
    (siteurl : String) : Option String :=
  (p.update_content filenames now p.raw_content.data siteurl.data).map String.mk

/-- Page.content (property): rewrite against context['localsiteurl']. -/
def Page.content (p : Page) (ctx : Context) (now : Int) : Option String :=
  p.get_content ctx.filenames now ctx.localsiteurl

/-! ### Summary -/

/-- Page._get_summary: the explicit _summary when captured at
construction, else the (rewritten) content truncated to
SUMMARY_MAX_LENGTH words when that setting is truthy, else the full
content.  truncate models the external pelican.utils.truncate_html_words
collaborator (not part of this repository's source); no claim depends on
its behaviour. -/
def Page.get_summary (p : Page) (ctx : Context) (truncate : String → Nat → String)
    (now : Int) : Option Val :=
  match p.summary_meta with
  | some v => some v
  | none =>
    if p.settings.SUMMARY_MAX_LENGTH ≠ 0 then
      (p.content ctx now).map (fun c => Val.vs (truncate c p.settings.SUMMARY_MAX_LENGTH))
    else (p.content ctx now).map Val.vs

/-- Page._set_summary: "Dummy function" — assigning to the summary
property does nothing and raises nothing. -/
def Page.set_summary (p : Page) (v : Val) : Page := p

/-! ### URLWrapper family -/

/-- URLWrapper: a named taxonomy object; cls is __class__.__name__
(Category / Tag / Author). -/
structure URLWrapper where
  cls : String
  name : String
  slug : String
  settings : Settings
deriving DecidableEq, Repr

/-- URLWrapper.__init__: name = unicode(name) (identity on strings),
slug = slugify(name); slugify is the external collaborator. -/
def mkURLWrapper (cls : String) (slugify : String → String) (name : String)
    (settings : Settings) : URLWrapper :=
  ⟨cls, name, slugify name, settings⟩

/-- The operand of URLWrapper.__eq__: unicode(other) is computed, so
plain strings and wrappers of any subtype are both comparable. -/
inductive PyStr where
  | str : String → PyStr
  | wrap : URLWrapper → PyStr

/-- unicode(other): a string is itself; a wrapper renders via
URLWrapper.__unicode__, i.e. its name. -/
def pyUnicode : PyStr → String
  | .str s => s
  | .wrap w => w.name

/-- URLWrapper.__eq__: self.name == unicode(other). -/
def URLWrapper.beq (w : URLWrapper) (other : PyStr) : Bool :=
  w.name == pyUnicode other

/-- A deterministic model of Python's string hash: any concrete function
of the string text is faithful to the property the code relies on
(equal names give equal hashes). -/
def pyHashStr (s : String) : Nat :=
  s.data.foldl (fun h c => (h * 1000003 + c.toNat) % (2 ^ 64)) 5381

/-- URLWrapper.__hash__: hash(self.name). -/
def URLWrapper.hashv (w : URLWrapper) : Nat := pyHashStr w.name

/-- Category(name, settings). -/
def mkCategory (slugify : String → String) (name : String) (settings : Settings) : URLWrapper :=
  mkURLWrapper "Category" slugify name settings

/-- Tag.__init__: the name is stripped of surrounding whitespace before
URLWrapper.__init__ runs. -/
def mkTag (slugify : String → String) (name : String) (settings : Settings) : URLWrapper :=
  mkURLWrapper "Tag" slugify (pyStrip name) settings

/-- Author(name, settings). -/
def mkAuthor (slugify : String → String) (name : String) (settings : Settings) : URLWrapper :=
  mkURLWrapper "Author" slugify name settings

/-! ### Concrete fixtures used by example conjuncts and witnesses -/

/-- A small concrete settings value (default language 'en', no templates). -/
def exSettings : Settings := ⟨[], some "en", "published", true, 5, none, "misc", "", []⟩

/-- Settings for the spec's ARTICLE_URL example. -/
def exSettingsUrl : Settings :=
  ⟨[], some "en", "published", true, 5, none, "misc", "", [("ARTICLE_URL", "{slug}.html")]⟩

/-- Settings for the spec's ARTICLE_LANG_URL example. -/
def exSettingsLangUrl : Settings :=
  ⟨[], some "en", "published", true, 5, none, "misc", "", [("ARTICLE_LANG_URL", "{lang}/{slug}.html")]⟩

/-- The article of the spec's first URL example: slug foo, default language. -/
def exArticleUrl : Page :=
  mkArticle id "" [("title", Val.vs "T"), ("slug", Val.vs "foo")] exSettingsUrl none 0

/-- The article of the spec's second URL example: slug foo, lang fr. -/
def exArticleLangUrl : Page :=
  mkArticle id "" [("title", Val.vs "T"), ("slug", Val.vs "foo"), ("lang", Val.vs "fr")]
    exSettingsLangUrl none 0

/-- A target page whose URL template is the constant X.html. -/
def exTargetX : Page :=
  ⟨"Page", ["title"], ⟨[], none, "published", true, 5, none, "misc", "", [("PAGE_URL", "X.html")]⟩,
   "", [], [], none, none⟩

/-- A target page whose URL template is the constant Y.html. -/
def exTargetY : Page :=
  ⟨"Page", ["title"], ⟨[], none, "published", true, 5, none, "misc", "", [("PAGE_URL", "Y.html")]⟩,
   "", [], [], none, none⟩

/-- A referencing page with PATH '' and source filename a.md at the
content root, so its relative_dir is defined and empty and a relative
reference 'x' resolves to key 'x'. -/
def exSelf : Page := ⟨"Page", ["title"], exSettings, "", [], [], some "a.md", none⟩

/-- Filenames index for the link-rewriting examples. -/
def exFns : List (List Char × Page) := [("x".data, exTargetX), ("y".data, exTargetY)]

/-! ## Helper lemmas -/

theorem getV_dictSet_self (d : Attrs) (k : String) (v : Val) :
    getV (dictSet d k v) k = some v := by
  induction d with
  | nil => simp [dictSet, getV]
  | cons h t ih =>
    obtain ⟨k0, v0⟩ := h
    by_cases hk : k0 = k
    · simp [dictSet, hk, getV]
    · simp [dictSet, hk, getV, ih]

theorem getV_dictSet_ne (d : Attrs) (k : String) (v : Val) (n : String) (h : k ≠ n) :
    getV (dictSet d k v) n = getV d n := by
  induction d with
  | nil => simp [dictSet, getV, h]
  | cons hd t ih =>
    obtain ⟨k0, v0⟩ := hd
    by_cases hk : k0 = k
    · simp [dictSet, hk, getV, h, ih]
    · simp [dictSet, hk, getV, ih]

theorem hasKey_dictSet (d : Attrs) (k : String) (v : Val) (n : String) :
    hasKey (dictSet d k v) n = (k == n || hasKey d n) := by
  by_cases h : k = n
  · subst h
    simp [hasKey, getV_dictSet_self]
  · simp [hasKey, getV_dictSet_ne d k v n h, h]

theorem getV_step_template (dt : String) (a : Attrs) (n : String) (h : n ≠ "template") :
    getV (step_template dt a) n = getV a n := by
  unfold step_template
  exact getV_dictSet_ne _ _ _ _ (fun he => h he.symm)

theorem getV_step_author (s : Settings) (a : Attrs) (n : String) (h : n ≠ "author") :
    getV (step_author s a) n = getV a n := by
  unfold step_author
  by_cases hk : hasKey a "author"
  · simp [hk]
  · simp [hk]
    cases s.AUTHOR with
    | none => rfl
    | some nm => exact getV_dictSet_ne _ _ _ _ (fun he => h he.symm)

theorem getV_step_lang_ne (s : Settings) (a : Attrs) (n : String)
    (h1 : n ≠ "lang") (h2 : n ≠ "in_default_lang") :
    getV (step_lang s a) n = getV a n := by
  unfold step_lang
  cases s.DEFAULT_LANG with
  | none => exact getV_dictSet_ne _ _ _ _ (fun he => h2 he.symm)
  | some dl0 =>
    simp only
    rw [getV_dictSet_ne _ _ _ _ (fun he => h2 he.symm)]
    by_cases hk : hasKey (dictSet a "in_default_lang" (Val.vb true)) "lang"
    · simp [hk, getV_dictSet_ne _ _ _ _ (fun he => h2 he.symm)]
    · simp [hk, getV_dictSet_ne _ _ _ _ (fun he => h1 he.symm),
        getV_dictSet_ne _ _ _ _ (fun he => h2 he.symm)]

theorem getV_step_slug (sg : String → String) (a : Attrs) (n : String) (h : n ≠ "slug") :
    getV (step_slug sg a) n = getV a n := by
  unfold step_slug
  by_cases hk : hasKey a "slug"
  · simp [hk]
  · simp [hk]
    cases getV a "title" with
    | none => rfl
    | some tv => exact getV_dictSet_ne _ _ _ _ (fun he => h he.symm)

theorem getV_step_status_ne (s : Settings) (now : Int) (a : Attrs) (n : String)
    (h : n ≠ "status") :
    getV (step_status s now a) n = getV a n := by
  unfold step_status
  by_cases hk : hasKey a "status"
  · simp [hk]
  · simp only [hk, Bool.false_eq_true, if_false]
    by_cases hw : s.WITH_FUTURE_DATES
    · simp [hw, getV_dictSet_ne _ _ _ _ (fun he => h he.symm)]
    · simp only [hw, Bool.false_eq_true, if_false]
      cases hd : getV (dictSet a "status" (Val.vs s.DEFAULT_STATUS)) "date" with
      | none => simp [getV_dictSet_ne _ _ _ _ (fun he => h he.symm)]
      | some dv =>
        cases dv with
        | vd t =>
          by_cases ht : now < t
          · simp [ht, getV_dictSet_ne _ _ _ _ (fun he => h he.symm)]
          · simp [ht, getV_dictSet_ne _ _ _ _ (fun he => h he.symm)]
        | vs x => simp [getV_dictSet_ne _ _ _ _ (fun he => h he.symm)]
        | vb x => simp [getV_dictSet_ne _ _ _ _ (fun he => h he.symm)]
        | vw x => simp [getV_dictSet_ne _ _ _ _ (fun he => h he.symm)]
        | vnone => simp [getV_dictSet_ne _ _ _ _ (fun he => h he.symm)]

theorem hasKey_step_template (dt : String) (a : Attrs) (n : String) (h : n ≠ "template") :
    hasKey (step_template dt a) n = hasKey a n := by
  simp [hasKey, getV_step_template dt a n h]

theorem hasKey_step_author (s : Settings) (a : Attrs) (n : String) (h : n ≠ "author") :
    hasKey (step_author s a) n = hasKey a n := by
  simp [hasKey, getV_step_author s a n h]

theorem hasKey_step_lang_ne (s : Settings) (a : Attrs) (n : String)
    (h1 : n ≠ "lang") (h2 : n ≠ "in_default_lang") :
    hasKey (step_lang s a) n = hasKey a n := by
  simp [hasKey, getV_step_lang_ne s a n h1 h2]

theorem hasKey_step_slug (sg : String → String) (a : Attrs) (n : String) (h : n ≠ "slug") :
    hasKey (step_slug sg a) n = hasKey a n := by
  simp [hasKey, getV_step_slug sg a n h]

theorem hasKey_step_status_ne (s : Settings) (now : Int) (a : Attrs) (n : String)
    (h : n ≠ "status") :
    hasKey (step_status s now a) n = hasKey a n := by
  simp [hasKey, getV_step_status_ne s now a n h]

/-- The attribute chain built by mkContent, named for reuse in proofs. -/
theorem mkContent_attrs (cls dt : String) (mp : List String) (sg : String → String)
    (c : String) (md : List (String × Val)) (st : Settings) (f : Option String) (now : Int) :
    (mkContent cls dt mp sg c md st f now).attrs =
      step_status st now (step_slug sg (step_lang st (step_author st
        (step_template dt (attrs_meta (local_meta st.DEFAULT_METADATA md)))))) := rfl

theorem mkContent_summary_meta (cls dt : String) (mp : List String) (sg : String → String)
    (c : String) (md : List (String × Val)) (st : Settings) (f : Option String) (now : Int) :
    (mkContent cls dt mp sg c md st f now).summary_meta = getV (dictOf md) "summary" := rfl

/-- getV through the whole construction chain, for attribute names none
of the construction steps write. -/
theorem getV_mkContent (cls dt : String) (mp : List String) (sg : String → String)
    (c : String) (md : List (String × Val)) (st : Settings) (f : Option String) (now : Int)
    (n : String) (h1 : n ≠ "template") (h2 : n ≠ "author") (h3 : n ≠ "lang")
    (h4 : n ≠ "in_default_lang") (h5 : n ≠ "slug") (h6 : n ≠ "status") :
    getV (mkContent cls dt mp sg c md st f now).attrs n =
      getV (attrs_meta (local_meta st.DEFAULT_METADATA md)) n := by
  rw [mkContent_attrs, getV_step_status_ne _ _ _ _ h6, getV_step_slug _ _ _ h5,
    getV_step_lang_ne _ _ _ h3 h4, getV_step_author _ _ _ h2, getV_step_template _ _ _ h1]

theorem hasKey_mkContent (cls dt : String) (mp : List String) (sg : String → String)
    (c : String) (md : List (String × Val)) (st : Settings) (f : Option String) (now : Int)
    (n : String) (h1 : n ≠ "template") (h2 : n ≠ "author") (h3 : n ≠ "lang")
    (h4 : n ≠ "in_default_lang") (h5 : n ≠ "slug") (h6 : n ≠ "status") :
    hasKey (mkContent cls dt mp sg c md st f now).attrs n =
      hasKey (attrs_meta (local_meta st.DEFAULT_METADATA md)) n := by
  simp [hasKey, getV_mkContent cls dt mp sg c md st f now n h1 h2 h3 h4 h5 h6]

/-- step_status with an explicit status attribute present leaves the
attributes unchanged. -/
theorem step_status_explicit (s : Settings) (now : Int) (a : Attrs)
    (h : hasKey a "status" = true) : step_status s now a = a := by
  unfold step_status
  simp [h]

/-- step_status when no explicit status exists and future dates are
allowed: the configured default status. -/
theorem step_status_wfd (s : Settings) (now : Int) (a : Attrs)
    (h : hasKey a "status" = false) (hw : s.WITH_FUTURE_DATES = true) :
    getV (step_status s now a) "status" = some (Val.vs s.DEFAULT_STATUS) := by
  unfold step_status
  simp [h, hw, getV_dictSet_self]

/-- step_status when no explicit status exists, future dates are
disabled and the date is in the future: draft. -/
theorem step_status_future (s : Settings) (now : Int) (a : Attrs) (t : Int)
    (h : hasKey a "status" = false) (hw : s.WITH_FUTURE_DATES = false)
    (hd : getV a "date" = some (Val.vd t)) (ht : now < t) :
    getV (step_status s now a) "status" = some (Val.vs "draft") := by
  unfold step_status
  have hd2 : getV (dictSet a "status" (Val.vs s.DEFAULT_STATUS)) "date" = some (Val.vd t) := by
    rw [getV_dictSet_ne _ _ _ _ (by decide), hd]
  simp [h, hw, hd2, ht, getV_dictSet_self]

/-- step_status when no explicit status exists, future dates are
disabled and the date is not in the future: the default status. -/
theorem step_status_past (s : Settings) (now : Int) (a : Attrs) (t : Int)
    (h : hasKey a "status" = false) (hw : s.WITH_FUTURE_DATES = false)
    (hd : getV a "date" = some (Val.vd t)) (ht : ¬ now < t) :
    getV (step_status s now a) "status" = some (Val.vs s.DEFAULT_STATUS) := by
  unfold step_status
  have hd2 : getV (dictSet a "status" (Val.vs s.DEFAULT_STATUS)) "date" = some (Val.vd t) := by
    rw [getV_dictSet_ne _ _ _ _ (by decide), hd]
  simp [h, hw, hd2, ht, getV_dictSet_self]

/-- step_status when no explicit status exists, future dates are
disabled and there is no date attribute: the default status. -/
theorem step_status_nodate (s : Settings) (now : Int) (a : Attrs)
    (h : hasKey a "status" = false) (hw : s.WITH_FUTURE_DATES = false)
    (hd : getV a "date" = none) :
    getV (step_status s now a) "status" = some (Val.vs s.DEFAULT_STATUS) := by
  unfold step_status
  have hd2 : getV (dictSet a "status" (Val.vs s.DEFAULT_STATUS)) "date" = none := by
    rw [getV_dictSet_ne _ _ _ _ (by decide), hd]
  simp [h, hw, hd2, getV_dictSet_self]

/-- step_lang when no default language is configured. -/
theorem step_lang_none (s : Settings) (a : Attrs) (h : s.DEFAULT_LANG = none) :
    step_lang s a = dictSet a "in_default_lang" (Val.vb true) := by
  unfold step_lang
  rw [h]

/-- Writing in_default_lang never touches the lang attribute. -/
theorem getV_dictSet_idl_lang (d : Attrs) (v : Val) :
    getV (dictSet d "in_default_lang" v) "lang" = getV d "lang" :=
  getV_dictSet_ne d "in_default_lang" v "lang" (by decide)

/-- step_lang when a default language is configured: in_default_lang is
the comparison of the final lang attribute with the lower-cased default. -/
theorem step_lang_some (s : Settings) (a : Attrs) (dl : String)
    (h : s.DEFAULT_LANG = some dl) :
    getV (step_lang s a) "in_default_lang" =
      some (Val.vb (valEqS (getV (step_lang s a) "lang") (pyLower dl))) := by
  unfold step_lang
  rw [h]
  by_cases hk : hasKey (dictSet a "in_default_lang" (Val.vb true)) "lang"
  · simp only [hk, if_true, getV_dictSet_self, getV_dictSet_idl_lang]
  · simp only [hk, Bool.false_eq_true, if_false, getV_dictSet_self, getV_dictSet_idl_lang]

/-- The final lang attribute produced by step_lang. -/
theorem getV_step_lang_lang (s : Settings) (a : Attrs) :
    getV (step_lang s a) "lang" =
      (match s.DEFAULT_LANG with
       | none => getV a "lang"
       | some dl0 =>
         if hasKey a "lang" then getV a "lang" else some (Val.vs (pyLower dl0))) := by
  unfold step_lang
  cases s.DEFAULT_LANG with
  | none => simp only [getV_dictSet_idl_lang]
  | some dl0 =>
    have hk0 : hasKey (dictSet a "in_default_lang" (Val.vb true)) "lang" = hasKey a "lang" := by
      simp [hasKey, getV_dictSet_idl_lang]
    simp only [hk0]
    by_cases hk : hasKey a "lang"
    · simp only [hk, if_true, getV_dictSet_idl_lang]
    · simp only [hk, Bool.false_eq_true, if_false, getV_dictSet_idl_lang, getV_dictSet_self]

theorem mkContent_mandatory (cls dt : String) (mp : List String) (sg : String → String)
    (c : String) (md : List (String × Val)) (st : Settings) (f : Option String) (now : Int) :
    (mkContent cls dt mp sg c md st f now).mandatory_properties = mp := rfl

/-- getV through the four steps before step_status (used when the status
step is examined separately). -/
theorem getV_presteps (dt : String) (sg : String → String) (st : Settings) (am : Attrs)
    (n : String) (h1 : n ≠ "template") (h2 : n ≠ "author") (h3 : n ≠ "lang")
    (h4 : n ≠ "in_default_lang") (h5 : n ≠ "slug") :
    getV (step_slug sg (step_lang st (step_author st (step_template dt am)))) n = getV am n := by
  rw [getV_step_slug _ _ _ h5, getV_step_lang_ne _ _ _ h3 h4, getV_step_author _ _ _ h2,
    getV_step_template _ _ _ h1]

/-! ## Claim C3: two-phase validation and check_properties order -/

/-- C3.  Construction of an Article is a total function (mkContent never
fails, whatever the metadata); check_properties on the constructed
Article reports the first missing mandatory field in declaration order
(title, date, category) as a named-field error, and succeeds when all
three are present.  A field is present exactly when the merged metadata
(DEFAULT_METADATA updated with the item metadata) sets it as an
attribute. -/
theorem C3_article_check_properties
    (sg : String → String) (content : String) (md : List (String × Val))
    (settings : Settings) (fname : Option String) (now : Int) (a : Page) (am : Attrs)
    (hp : a = mkArticle sg content md settings fname now)
    (ham : am = attrs_meta (local_meta settings.DEFAULT_METADATA md)) :
    (hasKey am "title" = false → a.check_properties = Except.error "title") ∧
    (hasKey am "title" = true → hasKey am "date" = false →
      a.check_properties = Except.error "date") ∧
    (hasKey am "title" = true → hasKey am "date" = true → hasKey am "category" = false →
      a.check_properties = Except.error "category") ∧
    (hasKey am "title" = true → hasKey am "date" = true → hasKey am "category" = true →
      a.check_properties = Except.ok ()) := by
  have hart : mkArticle sg content md settings fname now =
      mkContent "Article" "article" ["title", "date", "category"] sg content md settings
        fname now := rfl
  subst hp ham
  rw [hart]
  have ht := hasKey_mkContent "Article" "article" ["title", "date", "category"] sg content md
    settings fname now "title" (by decide) (by decide) (by decide) (by decide) (by decide)
    (by decide)
  have hd := hasKey_mkContent "Article" "article" ["title", "date", "category"] sg content md
    settings fname now "date" (by decide) (by decide) (by decide) (by decide) (by decide)
    (by decide)
  have hc := hasKey_mkContent "Article" "article" ["title", "date", "category"] sg content md
    settings fname now "category" (by decide) (by decide) (by decide) (by decide) (by decide)
    (by decide)
  refine ⟨fun hT => ?_, fun hT hD => ?_, fun hT hD hC => ?_, fun hT hD hC => ?_⟩
  · simp [Page.check_properties, check_go, Page.hasattr, mkContent_mandatory, ht, hT]
  · simp [Page.check_properties, check_go, Page.hasattr, mkContent_mandatory, ht, hd, hT, hD]
  · simp [Page.check_properties, check_go, Page.hasattr, mkContent_mandatory, ht, hd, hc,
      hT, hD, hC]
  · simp [Page.check_properties, check_go, Page.hasattr, mkContent_mandatory, ht, hd, hc,
      hT, hD, hC]

theorem C3_witness :
    (mkArticle id "" [("title", Val.vs "T")] exSettings none 0).check_properties =
      Except.error "date" :=
  (C3_article_check_properties id "" [("title", Val.vs "T")] exSettings none 0 _ _ rfl
    rfl).2.1 (by decide) (by decide)

/-! ## Claim C5: future-dated entities default to draft -/

/-- C5.  When the merged metadata supplies no status attribute, the
status resolved by construction is 'draft' whenever the date attribute
is a datetime in the future and WITH_FUTURE_DATES is false, and the
configured DEFAULT_STATUS otherwise (future dates allowed, date not in
the future, or no date at all). -/
theorem C5_future_date_draft
    (cls dt : String) (mp : List String) (sg : String → String) (content : String)
    (md : List (String × Val)) (settings : Settings) (fname : Option String)
    (now t : Int) (p : Page) (am : Attrs)
    (hp : p = mkContent cls dt mp sg content md settings fname now)
    (ham : am = attrs_meta (local_meta settings.DEFAULT_METADATA md))
    (hns : hasKey am "status" = false) :
    (settings.WITH_FUTURE_DATES = false → getV am "date" = some (Val.vd t) → now < t →
       getV p.attrs "status" = some (Val.vs "draft")) ∧
    (settings.WITH_FUTURE_DATES = true →
       getV p.attrs "status" = some (Val.vs settings.DEFAULT_STATUS)) ∧
    (settings.WITH_FUTURE_DATES = false → getV am "date" = some (Val.vd t) → ¬ now < t →
       getV p.attrs "status" = some (Val.vs settings.DEFAULT_STATUS)) ∧
    (settings.WITH_FUTURE_DATES = false → getV am "date" = none →
       getV p.attrs "status" = some (Val.vs settings.DEFAULT_STATUS)) := by
  subst hp ham
  rw [mkContent_attrs]
  set am := attrs_meta (local_meta settings.DEFAULT_METADATA md) with ham
  set a4 := step_slug sg (step_lang settings (step_author settings (step_template dt am)))
    with ha4
  have hks : hasKey a4 "status" = false := by
    have := getV_presteps dt sg settings am "status" (by decide) (by decide) (by decide)
      (by decide) (by decide)
    simpa [hasKey, this] using hns
  have hkd : getV a4 "date" = getV am "date" :=
    getV_presteps dt sg settings am "date" (by decide) (by decide) (by decide) (by decide)
      (by decide)
  refine ⟨fun hw hd ht => ?_, fun hw => ?_, fun hw hd ht => ?_, fun hw hd => ?_⟩
  · exact step_status_future settings now a4 t hks hw (by rw [hkd, hd]) ht
  · exact step_status_wfd settings now a4 hks hw
  · exact step_status_past settings now a4 t hks hw (by rw [hkd, hd]) ht
  · exact step_status_nodate settings now a4 hks hw (by rw [hkd, hd])

/-- Settings with future-dated publishing disabled. -/
def exSettingsNoFuture : Settings :=
  ⟨[], some "en", "published", false, 5, none, "misc", "", []⟩

theorem C5_witness :
    getV (mkContent "Article" "article" ["title", "date", "category"] id ""
      [("title", Val.vs "T"), ("date", Val.vd 100)] exSettingsNoFuture none 0).attrs
      "status" = some (Val.vs "draft") :=
  (C5_future_date_draft "Article" "article" ["title", "date", "category"] id ""
    [("title", Val.vs "T"), ("date", Val.vd 100)] exSettingsNoFuture none 0 100 _ _ rfl rfl
    (by decide)).1 rfl (by decide) (by decide)

/-! ## Claim C9: an explicit status is preserved -/

/-- C9.  When the merged metadata supplies an explicit status attribute,
construction keeps that value unchanged: the future-date downgrade is
skipped entirely, whatever WITH_FUTURE_DATES, the date and the clock
say. -/
theorem C9_explicit_status_preserved
    (cls dt : String) (mp : List String) (sg : String → String) (content : String)
    (md : List (String × Val)) (settings : Settings) (fname : Option String)
    (now : Int) (v : Val) (p : Page) (am : Attrs)
    (hp : p = mkContent cls dt mp sg content md settings fname now)
    (ham : am = attrs_meta (local_meta settings.DEFAULT_METADATA md))
    (hs : getV am "status" = some v) :
    getV p.attrs "status" = some v := by
  subst hp ham
  rw [mkContent_attrs]
  set am := attrs_meta (local_meta settings.DEFAULT_METADATA md) with ham
  set a4 := step_slug sg (step_lang settings (step_author settings (step_template dt am)))
    with ha4
  have hst : getV a4 "status" = some v := by
    rw [getV_presteps dt sg settings am "status" (by decide) (by decide) (by decide)
      (by decide) (by decide), hs]
  rw [step_status_explicit settings now a4 (by simp [hasKey, hst]), hst]

theorem C9_witness :
    getV (mkContent "Article" "article" ["title", "date", "category"] id ""
      [("status", Val.vs "published"), ("date", Val.vd 100)] exSettingsNoFuture none 0).attrs
      "status" = some (Val.vs "published") :=
  C9_explicit_status_preserved "Article" "article" ["title", "date", "category"] id ""
    [("status", Val.vs "published"), ("date", Val.vd 100)] exSettingsNoFuture none 0
    (Val.vs "published") _ _ rfl rfl (by decide)

/-! ## Claim C4 (corrected): in_default_lang compares the raw lang -/

/-- C4 counterexample.  The claim says in_default_lang is true iff the
entity's lang lower-cased equals DEFAULT_LANG lower-cased.  With
metadata lang "EN" and DEFAULT_LANG "en" the two lower-casings agree,
yet the code compares the raw lang "EN" with the lowered default "en"
and yields false. -/
theorem C4_counterexample :
    (mkPage id "" [("lang", Val.vs "EN")] exSettings none 0).in_default_lang = false ∧
    pyLower "EN" = pyLower "en" := by
  constructor
  · decide
  · rfl

/-- C4 (amended).  in_default_lang is unconditionally true when no
DEFAULT_LANG is configured; otherwise it is true iff the entity's lang
attribute — compared as-is, NOT lower-cased — equals the lower-cased
DEFAULT_LANG. -/
theorem C4_in_default_lang_amended
    (cls dt : String) (mp : List String) (sg : String → String) (content : String)
    (md : List (String × Val)) (settings : Settings) (fname : Option String)
    (now : Int) (p : Page)
    (hp : p = mkContent cls dt mp sg content md settings fname now) :
    (settings.DEFAULT_LANG = none → p.in_default_lang = true) ∧
    (∀ dl, settings.DEFAULT_LANG = some dl →
       p.in_default_lang = valEqS (getV p.attrs "lang") (pyLower dl)) := by
  subst hp
  rw [Page.in_default_lang, mkContent_attrs]
  set am := attrs_meta (local_meta settings.DEFAULT_METADATA md) with ham
  set a2 := step_author settings (step_template dt am) with ha2
  have hidl : getV (step_status settings now (step_slug sg (step_lang settings a2)))
      "in_default_lang" = getV (step_lang settings a2) "in_default_lang" := by
    rw [getV_step_status_ne _ _ _ _ (by decide), getV_step_slug _ _ _ (by decide)]
  have hlang : getV (step_status settings now (step_slug sg (step_lang settings a2)))
      "lang" = getV (step_lang settings a2) "lang" := by
    rw [getV_step_status_ne _ _ _ _ (by decide), getV_step_slug _ _ _ (by decide)]
  constructor
  · intro hn
    rw [hidl, step_lang_none settings a2 hn, getV_dictSet_self]
  · intro dl hdl
    rw [hidl, hlang, step_lang_some settings a2 dl hdl]

theorem C4_witness :
    (mkPage id "" [("lang", Val.vs "fr")] exSettings none 0).in_default_lang =
      valEqS (getV (mkPage id "" [("lang", Val.vs "fr")] exSettings none 0).attrs "lang")
        (pyLower "en") :=
  (C4_in_default_lang_amended "Page" "page" ["title"] id "" [("lang", Val.vs "fr")]
    exSettings none 0 _ rfl).2 "en" rfl

/-! ## Claim C7: an explicit summary is returned verbatim -/

/-- C7.  When the per-item construction metadata contains a 'summary'
key, reading the summary property returns that captured value verbatim,
whatever SUMMARY_MAX_LENGTH (and whatever the truncation collaborator
does); assigning to the summary property afterwards is a no-op that
leaves the whole entity — and hence the value summary returns —
unchanged, and raises nothing. -/
theorem C7_explicit_summary_verbatim
    (cls dt : String) (mp : List String) (sg : String → String) (content : String)
    (md : List (String × Val)) (settings : Settings) (fname : Option String)
    (now now2 : Int) (v x : Val) (ctx : Context) (truncate : String → Nat → String)
    (p : Page) (hp : p = mkContent cls dt mp sg content md settings fname now)
    (h : getV (dictOf md) "summary" = some v) :
    p.get_summary ctx truncate now2 = some v ∧
    p.set_summary x = p ∧
    (p.set_summary x).get_summary ctx truncate now2 = p.get_summary ctx truncate now2 := by
  subst hp
  refine ⟨?_, rfl, rfl⟩
  rw [Page.get_summary, mkContent_summary_meta, h]

theorem C7_witness :
    (mkContent "Page" "page" ["title"] id "" [("summary", Val.vs "S")] exSettings none
      0).get_summary ⟨[], ""⟩ (fun s _ => s) 0 = some (Val.vs "S") ∧
    (mkContent "Page" "page" ["title"] id "" [("summary", Val.vs "S")] exSettings none
      0).set_summary (Val.vs "zz") =
      mkContent "Page" "page" ["title"] id "" [("summary", Val.vs "S")] exSettings none 0 :=
  ⟨(C7_explicit_summary_verbatim "Page" "page" ["title"] id "" [("summary", Val.vs "S")]
      exSettings none 0 0 (Val.vs "S") (Val.vs "zz") ⟨[], ""⟩ (fun s _ => s) _ rfl rfl).1,
   (C7_explicit_summary_verbatim "Page" "page" ["title"] id "" [("summary", Val.vs "S")]
      exSettings none 0 0 (Val.vs "S") (Val.vs "zz") ⟨[], ""⟩ (fun s _ => s) _ rfl rfl).2.1⟩

/-! ## Claim C6 (corrected): Tag equality is name-based after strip,
but not case-insensitive -/

/-- C6 counterexample.  The claim says Tag "Foo" and Tag "foo " compare
equal; stripping yields names "Foo" and "foo", and the name comparison
of URLWrapper.__eq__ is case-sensitive, so they do not. -/
theorem C6_counterexample :
    (mkTag id "Foo" exSettings).beq (PyStr.wrap (mkTag id "foo " exSettings)) = false := by
  decide

/-- C6 (amended).  Tag instances built from "foo" and "foo " compare
equal and hash equal: Tag strips surrounding whitespace from its name
and URLWrapper equality and hashing depend on the name field only (the
comparison stays case-sensitive, so "Foo" would not equal "foo"). -/
theorem C6_tag_equality_amended (sg sg2 : String → String) (st st2 : Settings) :
    (mkTag sg "foo" st).beq (PyStr.wrap (mkTag sg2 "foo " st2)) = true ∧
    (mkTag sg "foo" st).hashv = (mkTag sg2 "foo " st2).hashv := by
  constructor <;> rfl

/-! ## Claim C10: URLWrapper equality crosses subtypes and strings -/

/-- C10.  URLWrapper.__eq__ compares self.name with unicode(other), so a
wrapper equals the plain string carrying its name, equals a wrapper of a
different subtype with the same name, and in general wrapper-to-wrapper
and wrapper-to-string equality reduce to name comparison, with no type
restriction. -/
theorem C10_urlwrapper_cross_type_eq (sg sg2 : String → String) (st st2 : Settings)
    (n s : String) (w w2 : URLWrapper) :
    (mkCategory sg n st).beq (PyStr.str n) = true ∧
    (mkCategory sg n st).beq (PyStr.wrap (mkAuthor sg2 n st2)) = true ∧
    (w.beq (PyStr.wrap w2) = (w.name == w2.name)) ∧
    (w.beq (PyStr.str s) = (w.name == s)) := by
  refine ⟨?_, ?_, rfl, rfl⟩ <;> simp [URLWrapper.beq, pyUnicode, mkCategory, mkAuthor,
    mkURLWrapper]

/-! ## Claim C2: URL computation from settings templates -/

/-- C2.  url and save_as on an Article are obtained by looking up the
settings key "ARTICLE_URL" / "ARTICLE_SAVE_AS" (the upper-cased
"<ClassName>_<key>") in the default language and "ARTICLE_LANG_URL" /
"ARTICLE_LANG_SAVE_AS" otherwise, and formatting the configured
template with the {slug, lang, date, author, category} mapping; in
particular ARTICLE_URL = "{slug}.html" with slug foo yields "foo.html"
and ARTICLE_LANG_URL = "{lang}/{slug}.html" with lang fr yields
"fr/foo.html". -/
theorem C2_url_settings_template (p : Page) (now : Int) (hc : p.cls = "Article") :
    (p.in_default_lang = true →
       Page.url p now = (lookupStr p.settings.templates "ARTICLE_URL").bind
         (fun tpl => pyFormat tpl (p.url_format now)) ∧
       Page.save_as p now = (lookupStr p.settings.templates "ARTICLE_SAVE_AS").bind
         (fun tpl => pyFormat tpl (p.url_format now))) ∧
    (p.in_default_lang = false →
       Page.url p now = (lookupStr p.settings.templates "ARTICLE_LANG_URL").bind
         (fun tpl => pyFormat tpl (p.url_format now)) ∧
       Page.save_as p now = (lookupStr p.settings.templates "ARTICLE_LANG_SAVE_AS").bind
         (fun tpl => pyFormat tpl (p.url_format now))) ∧
    Page.url exArticleUrl 0 = some "foo.html" ∧
    Page.url exArticleLangUrl 0 = some "fr/foo.html" := by
  have k1 : pyUpper (p.cls ++ "_" ++ "url") = "ARTICLE_URL" := by rw [hc]; rfl
  have k2 : pyUpper (p.cls ++ "_" ++ "save_as") = "ARTICLE_SAVE_AS" := by rw [hc]; rfl
  have k3 : pyUpper (p.cls ++ "_" ++ ("lang_" ++ "url")) = "ARTICLE_LANG_URL" := by
    rw [hc]; rfl
  have k4 : pyUpper (p.cls ++ "_" ++ ("lang_" ++ "save_as")) = "ARTICLE_LANG_SAVE_AS" := by
    rw [hc]; rfl
  refine ⟨fun hd => ⟨?_, ?_⟩, fun hd => ⟨?_, ?_⟩, by decide, by decide⟩ <;>
    · first
      | (simp only [Page.url, Page.get_url_setting, hd, if_true, Page.expand_settings, k1]
         cases lookupStr p.settings.templates "ARTICLE_URL" <;> rfl)
      | (simp only [Page.save_as, Page.get_url_setting, hd, if_true, Page.expand_settings, k2]
         cases lookupStr p.settings.templates "ARTICLE_SAVE_AS" <;> rfl)
      | (simp only [Page.url, Page.get_url_setting, hd, Bool.false_eq_true, if_false,
           Page.expand_settings, k3]
         cases lookupStr p.settings.templates "ARTICLE_LANG_URL" <;> rfl)
      | (simp only [Page.save_as, Page.get_url_setting, hd, Bool.false_eq_true, if_false,
           Page.expand_settings, k4]
         cases lookupStr p.settings.templates "ARTICLE_LANG_SAVE_AS" <;> rfl)

theorem C2_witness :
    Page.url exArticleUrl 0 = (lookupStr exArticleUrl.settings.templates "ARTICLE_URL").bind
      (fun tpl => pyFormat tpl (exArticleUrl.url_format 0)) :=
  ((C2_url_settings_template exArticleUrl 0 rfl).1 (by decide)).1

/-! ## Scanner decomposition lemmas: every successful parse is a real
split of its input -/

theorem stripPrefixL_eq (pre : List Char) :
    ∀ t r, stripPrefixL pre t = some r → t = pre ++ r := by
  induction pre with
  | nil =>
    intro t r h
    simp only [stripPrefixL, Option.some.injEq] at h
    simp [h]
  | cons a pre ih =>
    intro t r h
    cases t with
    | nil => simp [stripPrefixL] at h
    | cons b t =>
      rw [stripPrefixL] at h
      by_cases hab : a = b
      · rw [if_pos hab] at h
        subst hab
        simp [ih t r h]
      · rw [if_neg hab] at h
        exact absurd h (by simp)

theorem parseWsEq_eq : ∀ t we r, parseWsEq t = some (we, r) → t = we ++ r := by
  intro t
  induction t with
  | nil => intro we r h; simp [parseWsEq] at h
  | cons c t ih =>
    intro we r h
    rw [parseWsEq] at h
    by_cases hs : isPySpace c
    · rw [if_pos hs] at h
      cases hp : parseWsEq t with
      | none => rw [hp] at h; simp at h
      | some pr =>
        rw [hp] at h
        simp only [Option.map_some', Option.some.injEq] at h
        obtain ⟨h1, h2⟩ := Prod.mk.injEq .. ▸ h
        subst h1 h2
        simp [ih pr.1 pr.2 (by rw [hp])]
    · rw [if_neg hs] at h
      by_cases he : c = '='
      · rw [if_pos he] at h
        simp only [Option.some.injEq, Prod.mk.injEq] at h
        obtain ⟨h1, h2⟩ := h
        subst h1 h2
        simp [he]
      · rw [if_neg he] at h
        exact absurd h (by simp)

theorem parseKeyEq_eq (t ke r : List Char) (h : parseKeyEq t = some (ke, r)) :
    t = ke ++ r := by
  rw [parseKeyEq] at h
  split at h
  next r1 hh =>
    split at h
    next we rest hw =>
      simp only [Option.some.injEq, Prod.mk.injEq] at h
      obtain ⟨h1, h2⟩ := h
      subst h1 h2
      rw [stripPrefixL_eq _ _ _ hh, parseWsEq_eq _ _ _ hw]
      simp
    next => simp at h
  next hh =>
    split at h
    next r1 hs =>
      split at h
      next we rest hw =>
        simp only [Option.some.injEq, Prod.mk.injEq] at h
        obtain ⟨h1, h2⟩ := h
        subst h1 h2
        rw [stripPrefixL_eq _ _ _ hs, parseWsEq_eq _ _ _ hw]
        simp
      next => simp at h
    next => simp at h

theorem lazyUntil_eq (stop : Char) :
    ∀ t v r, lazyUntil stop t = some (v, r) → t = v ++ stop :: r := by
  intro t
  induction t with
  | nil => intro v r h; simp [lazyUntil] at h
  | cons c t ih =>
    intro v r h
    rw [lazyUntil] at h
    by_cases hc : c = stop
    · rw [if_pos hc] at h
      simp only [Option.some.injEq, Prod.mk.injEq] at h
      obtain ⟨h1, h2⟩ := h
      subst h1 h2
      simp [hc]
    · rw [if_neg hc] at h
      by_cases hn : c = '\n'
      · rw [if_pos hn] at h; simp at h
      · rw [if_neg hn] at h
        cases hp : lazyUntil stop t with
        | none => rw [hp] at h; simp at h
        | some pr =>
          rw [hp] at h
          simp only [Option.map_some', Option.some.injEq] at h
          obtain ⟨h1, h2⟩ := Prod.mk.injEq .. ▸ h
          subst h1 h2
          simp [ih pr.1 pr.2 (by rw [hp])]

theorem parseWhatValue_eq (q : Char) :
    ∀ t w v r, parseWhatValue q t = some (w, v, r) → t = w ++ '|' :: v ++ q :: r := by
  intro t
  induction t with
  | nil => intro w v r h; simp [parseWhatValue] at h
  | cons c t ih =>
    intro w v r h
    rw [parseWhatValue] at h
    by_cases hn : c = '\n'
    · rw [if_pos hn] at h; simp at h
    · rw [if_neg hn] at h
      by_cases hp : c = '|'
      · rw [if_pos hp] at h
        split at h
        next v2 r2 hl =>
          simp only [Option.some.injEq, Prod.mk.injEq] at h
          obtain ⟨h1, h2, h3⟩ := h
          subst h1 h2 h3
          simp [hp, lazyUntil_eq q t _ _ hl]
        next hl =>
          cases hw : parseWhatValue q t with
          | none => rw [hw] at h; simp at h
          | some x =>
            rw [hw] at h
            simp only [Option.map_some', Option.some.injEq] at h
            obtain ⟨h1, h2⟩ := Prod.mk.injEq .. ▸ h
            subst h1
            obtain ⟨h2, h3⟩ := Prod.mk.injEq .. ▸ h2
            subst h2 h3
            simpa using ih x.1 x.2.1 x.2.2 (by rw [hw])
      · rw [if_neg hp] at h
        cases hw : parseWhatValue q t with
        | none => rw [hw] at h; simp at h
        | some x =>
          rw [hw] at h
          simp only [Option.map_some', Option.some.injEq] at h
          obtain ⟨h1, h2⟩ := Prod.mk.injEq .. ▸ h
          subst h1
          obtain ⟨h2, h3⟩ := Prod.mk.injEq .. ▸ h2
          subst h2 h3
          simpa using ih x.1 x.2.1 x.2.2 (by rw [hw])

theorem parseFromKey_eq (t : List Char) (k : KeyMatch) (h : parseFromKey t = some k) :
    t = k.keyeq ++ k.quote :: '|' :: k.what ++ '|' :: k.value ++ k.quote :: k.rest := by
  rw [parseFromKey] at h
  split at h
  next => simp at h
  next ke r hk =>
    split at h
    next => simp at h
    next qc r2 =>
      split at h
      next hq =>
        split at h
        next r3 =>
          split at h
          next w v rest hw =>
            simp only [Option.some.injEq] at h
            subst h
            simp only []
            rw [parseKeyEq_eq t ke _ hk, parseWhatValue_eq qc r3 w v rest hw]
            simp
          next => simp at h
        next => simp at h
      next => simp at h

theorem attrScan_eq (t : List Char) (m : AttrMatch) (h : attrScan t = some m) :
    t = m.before ++ m.keyeq ++ m.quote :: '|' :: m.what ++ '|' :: m.value ++
      m.quote :: m.rest := by
  induction t generalizing m with
  | nil => simp [attrScan] at h
  | cons c t ih =>
    rw [attrScan] at h
    by_cases hc : c = '>'
    · rw [if_pos hc] at h; simp at h
    · rw [if_neg hc] at h
      split at h
      next m2 ha =>
        simp only [Option.some.injEq] at h
        subst h
        simpa using ih m2 ha
      next ha =>
        split at h
        next k hk =>
          simp only [Option.some.injEq] at h
          subst h
          simpa using parseFromKey_eq (c :: t) k hk
        next => simp at h

theorem matchAt_eq (s : List Char) (m : RegexMatch) (h : matchAt s = some m) :
    s = m.pre ++ m.markup ++ m.quote :: '|' :: m.what ++ '|' :: m.value ++
      m.quote :: m.rest ∧ m.pre = [] := by
  cases s with
  | nil => simp [matchAt] at h
  | cons c t =>
    rw [matchAt] at h
    by_cases hc : c = '<'
    · rw [if_pos hc] at h
      split at h
      next am ha =>
        simp only [Option.some.injEq] at h
        subst h
        refine ⟨?_, rfl⟩
        simp only [List.nil_append, hc]
        have := attrScan_eq t am ha
        simp [this]
      next => simp at h
    · rw [if_neg hc] at h; simp at h

theorem findFirst_eq (s : List Char) (m : RegexMatch) (h : findFirst s = some m) :
    s = m.pre ++ m.markup ++ m.quote :: '|' :: m.what ++ '|' :: m.value ++
      m.quote :: m.rest := by
  induction s generalizing m with
  | nil => simp [findFirst] at h
  | cons c t ih =>
    rw [findFirst] at h
    split at h
    next m2 hm =>
      simp only [Option.some.injEq] at h
      subst h
      exact (matchAt_eq (c :: t) m2 hm).1
    next hm =>
      split at h
      next m2 hf =>
        simp only [Option.some.injEq] at h
        subst h
        simpa using ih m2 hf
      next => simp at h

/-- The remainder after a match is strictly shorter than the input. -/
theorem findFirst_rest_lt (s : List Char) (m : RegexMatch) (h : findFirst s = some m) :
    m.rest.length < s.length := by
  have := findFirst_eq s m h
  subst this
  simp
  omega

/-- subAll does not depend on the fuel once the fuel exceeds the input
length. -/
theorem subAll_congr (repl : List Char → List Char → Option (List Char)) :
    ∀ f g s, s.length < f → s.length < g → subAll repl f s = subAll repl g s := by
  intro f
  induction f with
  | zero => intro g s hf hg; exact absurd hf (by omega)
  | succ f ih =>
    intro g s hf hg
    cases g with
    | zero => exact absurd hg (by omega)
    | succ g =>
      cases hm : findFirst s with
      | none => simp only [subAll, hm]
      | some m =>
        have hlt := findFirst_rest_lt s m hm
        simp only [subAll, hm]
        rw [ih g m.rest (by omega) (by omega)]

/-- With an empty filenames index the replacer hands back the original
placeholder text whenever the entity's relative_dir is defined (so the
relative branch cannot raise). -/
theorem replacer_nil (p : Page) (now : Int) (rd : List Char)
    (hrd : p.relative_dir = some rd) (w v : List Char) :
    Page.replacer p [] now w v = some ('|' :: (w ++ '|' :: v)) := by
  rw [Page.replacer]
  by_cases hw : w = filenameL
  · by_cases hv : v.head? = some '/'
    · simp [hw, hv, lookupFn]
    · simp [hw, hv, hrd, lookupFn]
  · simp [hw]

/-- With an empty filenames index and a defined relative_dir the whole
substitution is the identity: every match is replaced by exactly its own
text. -/
theorem subAll_nil_id (p : Page) (now : Int) (rd : List Char)
    (hrd : p.relative_dir = some rd) :
    ∀ f s, s.length < f → subAll (Page.replacer p [] now) f s = some s := by
  intro f
  induction f with
  | zero => intro s h; exact absurd h (by omega)
  | succ f ih =>
    intro s h
    cases hm : findFirst s with
    | none => simp only [subAll, hm]
    | some m =>
      have hlt := findFirst_rest_lt s m hm
      have hdec := findFirst_eq s m hm
      simp only [subAll, hm, replacer_nil p now rd hrd]
      rw [ih m.rest (by omega)]
      simp only [Option.some.injEq]
      rw [hdec]
      simp

/-! ## Claim C8 (corrected): deterministic, but not idempotent -/

/-- C8 counterexample.  The greedy [^>]* of the markup group makes the
regex match only the LAST placeholder attribute of a tag, so a tag
carrying both an href and a src placeholder is rewritten one attribute
per pass: the first pass resolves only the src, a second pass changes
the output again by resolving the href.  Rewriting is therefore not
idempotent for this fixed index. -/
theorem C8_counterexample :
    Page.update_content exSelf exFns 0
      "<a href=\"|filename|x\" src=\"|filename|y\">".data [] =
      some "<a href=\"|filename|x\" src=\"Y.html\">".data ∧
    Page.update_content exSelf exFns 0
      "<a href=\"|filename|x\" src=\"Y.html\">".data [] =
      some "<a href=\"X.html\" src=\"Y.html\">".data ∧
    "<a href=\"|filename|x\" src=\"Y.html\">".data ≠
      "<a href=\"X.html\" src=\"Y.html\">".data := by
  refine ⟨by decide, by decide, by decide⟩

/-- C8 (amended).  For a fixed siteurl and a fixed filenames index, link
rewriting is deterministic (a pure function of its inputs: two runs give
the same output); it is NOT idempotent in general — each pass rewrites
only the last placeholder attribute of a tag — but for an entity whose
source filename is set (relative_dir defined), when no reference can
resolve (an empty index) the rewrite returns every content unchanged and
is in particular idempotent there. -/
theorem C8_rewrite_deterministic_amended (p : Page) (fns : List (List Char × Page))
    (now : Int) (c su : List Char) (rd : List Char)
    (hrd : p.relative_dir = some rd) :
    (p.update_content fns now c su = p.update_content fns now c su) ∧
    (Page.update_content p [] now c su = some c) :=
  ⟨rfl, subAll_nil_id p now rd hrd (c.length + 1) c (by omega)⟩

theorem C8_witness :
    Page.update_content exSelf [] 0 "<a href=\"|filename|x\">".data [] =
      some "<a href=\"|filename|x\">".data :=
  (C8_rewrite_deterministic_amended exSelf [] 0 "<a href=\"|filename|x\">".data [] []
    (by decide)).2

/-! ## Claim C1: machinery for symbolic evaluation of the scanner on a
canonical placeholder attribute -/

end Pelican
